import Mathlib

/-!
Verification of the JSONL processing and merging utility (jsonl_utils.py).

The development shallowly embeds the record-level logic of the program:
JSON values as parsed by json.loads are an inductive type, Python dicts
are insertion-ordered association lists, and each relevant Python function
is translated into a Lean function of the same name.  Input files are
modelled as lists of lines, each line classified exactly the way the code
classifies it (blank after strip, malformed under json.loads, or a parsed
JSON object), since that classification is all the code inspects.
-/

namespace JsonlUtils

/-- JSON values as produced by json.loads.  JSON numbers are modelled as
integers (every number appearing in the spec and in the claims is
integral); objects keep insertion order, as Python dicts do. -/
inductive JsonVal where
  | null
  | bool (b : Bool)
  | int (n : Int)
  | str (s : String)
  | arr (elems : List JsonVal)
  | obj (fields : List (String × JsonVal))

/-- A parsed JSON object: a Python dict with string keys in insertion order. -/
abbrev PyDict := List (String × JsonVal)

mutual

/-- Structural equality of JSON values, modelling the == comparisons the
program performs on parsed values. -/
def beqJson : JsonVal → JsonVal → Bool
  | JsonVal.null, JsonVal.null => true
  | JsonVal.bool a, JsonVal.bool b => a == b
  | JsonVal.int a, JsonVal.int b => a == b
  | JsonVal.str a, JsonVal.str b => a == b
  | JsonVal.arr xs, JsonVal.arr ys => beqJsonList xs ys
  | JsonVal.obj xs, JsonVal.obj ys => beqJsonFields xs ys
  | _, _ => false

/-- Elementwise equality of JSON arrays. -/
def beqJsonList : List JsonVal → List JsonVal → Bool
  | [], [] => true
  | x :: xs, y :: ys => beqJson x y && beqJsonList xs ys
  | _, _ => false

/-- Entrywise equality of JSON objects. -/
def beqJsonFields : List (String × JsonVal) → List (String × JsonVal) → Bool
  | [], [] => true
  | x :: xs, y :: ys => (x.1 == y.1) && beqJson x.2 y.2 && beqJsonFields xs ys
  | _, _ => false

end

instance : BEq JsonVal := ⟨beqJson⟩

/-- Python truthiness of a parsed JSON value, as used by the program in
conditions such as `if record.get(field):`. -/
def jsonTruthy : JsonVal → Bool
  | JsonVal.null => false
  | JsonVal.bool b => b
  | JsonVal.int n => n != 0
  | JsonVal.str s => s != ""
  | JsonVal.arr es => !es.isEmpty
  | JsonVal.obj fs => !fs.isEmpty

/-- A single-quote character, used when rendering Python repr of strings. -/
def quoteChar : String := (Char.ofNat 39).toString

mutual

/-- Python repr of a parsed JSON value (string-escape subtleties are not
modelled; no theorem depends on them). -/
def pyRepr : JsonVal → String
  | JsonVal.null => "None"
  | JsonVal.bool true => "True"
  | JsonVal.bool false => "False"
  | JsonVal.int n => toString n
  | JsonVal.str s => quoteChar ++ s ++ quoteChar
  | JsonVal.arr es => "[" ++ pyReprList es ++ "]"
  | JsonVal.obj fs => "\x7b" ++ pyReprFields fs ++ "\x7d"

/-- Comma-separated reprs of the elements of a list. -/
def pyReprList : List JsonVal → String
  | [] => ""
  | [e] => pyRepr e
  | e :: rest => pyRepr e ++ ", " ++ pyReprList rest

/-- Comma-separated reprs of the fields of a dict. -/
def pyReprFields : List (String × JsonVal) → String
  | [] => ""
  | [kv] => quoteChar ++ kv.1 ++ quoteChar ++ ": " ++ pyRepr kv.2
  | kv :: rest =>
    quoteChar ++ kv.1 ++ quoteChar ++ ": " ++ pyRepr kv.2 ++ ", " ++ pyReprFields rest

end

/-- Python str() of a parsed JSON value, as used by `str(id_value)` when
identity values are normalised for deduplication. -/
def pyStr : JsonVal → String
  | JsonVal.str s => s
  | v => pyRepr v

/-- One character of a JSON string rendered by json.dumps (only the quote
and the backslash are escaped; no theorem depends on escaping). -/
def escapeJsonChar (c : Char) : String :=
  if c = '"' then "\\\"" else if c = '\\' then "\\\\" else String.singleton c

/-- A JSON string body rendered by json.dumps. -/
def escapeJsonString (s : String) : String :=
  String.join (s.toList.map escapeJsonChar)

mutual

/-- json.dumps of a value with ensure_ascii False and default separators,
as used when the program serialises a record back to one output line. -/
def jsonDumps : JsonVal → String
  | JsonVal.null => "null"
  | JsonVal.bool true => "true"
  | JsonVal.bool false => "false"
  | JsonVal.int n => toString n
  | JsonVal.str s => "\"" ++ escapeJsonString s ++ "\""
  | JsonVal.arr es => "[" ++ dumpsList es ++ "]"
  | JsonVal.obj fs => "\x7b" ++ dumpsFields fs ++ "\x7d"

/-- Comma-separated dumps of the elements of an array. -/
def dumpsList : List JsonVal → String
  | [] => ""
  | [e] => jsonDumps e
  | e :: rest => jsonDumps e ++ ", " ++ dumpsList rest

/-- Comma-separated dumps of the fields of an object. -/
def dumpsFields : List (String × JsonVal) → String
  | [] => ""
  | [kv] => "\"" ++ escapeJsonString kv.1 ++ "\": " ++ jsonDumps kv.2
  | kv :: rest =>
    "\"" ++ escapeJsonString kv.1 ++ "\": " ++ jsonDumps kv.2 ++ ", " ++ dumpsFields rest

end

/-- The output line produced for a record: json.dumps of the object. -/
def dumpsRecord (r : PyDict) : String := jsonDumps (JsonVal.obj r)

/-- dict.get: the value stored under a key, if present. -/
def pyGet : PyDict → String → Option JsonVal
  | [], _ => none
  | kv :: rest, k => if kv.1 = k then some kv.2 else pyGet rest k

/-- The keys of a dict, in insertion order. -/
def pyKeys (d : PyDict) : List String := d.map Prod.fst

/-- dict item assignment: replaces the value in place if the key is
present (keeping its position, as Python dicts do), otherwise appends the
new key at the end. -/
def pySet : PyDict → String → JsonVal → PyDict
  | [], k, v => [(k, v)]
  | kv :: rest, k, v => if kv.1 = k then (k, v) :: rest else kv :: pySet rest k v

/-- One line of an input file, classified the way the program classifies
it: blank after line.strip(), non-blank but rejected by json.loads, or
parsed to a JSON object. -/
inductive Line where
  | blank
  | malformed (raw : String)
  | valid (record : PyDict)

/-- Whether a line is blank after stripping. -/
def Line.isBlank : Line → Bool
  | Line.blank => true
  | _ => false

/-- Whether a line is non-blank but not valid JSON. -/
def Line.isMalformed : Line → Bool
  | Line.malformed _ => true
  | _ => false

/-- Whether a line parses to a record. -/
def Line.isValid : Line → Bool
  | Line.valid _ => true
  | _ => false

/-- A string is blank when it strips to nothing, i.e. every character is
whitespace. -/
def isBlankStr (s : String) : Bool := s.toList.all Char.isWhitespace

/-- Well-formedness of the line classification: a line classified as
malformed is by definition non-blank (its strip is nonempty). -/
def Line.wfLine : Line → Bool
  | Line.malformed raw => !isBlankStr raw
  | _ => true

/-- get_id_field_name: the first of _id, uuid, id present in the record,
if any (the loop over the fixed priority list in the source). -/
def get_id_field_name (record : PyDict) : Option String :=
  ["_id", "uuid", "id"].find? (fun field => (pyKeys record).contains field)

/-- record.get(field) followed by the `is not None` test performed on id
values: a stored JSON null becomes Python None, exactly like an absent
key. -/
def idValue (record : PyDict) (field : String) : Option JsonVal :=
  match pyGet record field with
  | some JsonVal.null => none
  | some v => some v
  | none => none

/-- set.add on the seen/collected id-string set (modelled as a list of
distinct strings). -/
def setAdd (s : List String) (x : String) : List String :=
  if s.contains x then s else x :: s

/-- The loop body of collect_ids_from_file: walks the lines keeping the
collected id strings and the id field name fixed by the first valid
record; raises (as Except.error) with the source's messages. -/
def collectIdsLoop (fileName : String) :
    List Line → List String → Option String → Except String (List String × String)
  | [], _, none => Except.error ("No valid records found in " ++ fileName)
  | [], ids, some field => Except.ok (ids, field)
  | Line.blank :: rest, ids, fieldOpt => collectIdsLoop fileName rest ids fieldOpt
  | Line.malformed _ :: rest, ids, fieldOpt => collectIdsLoop fileName rest ids fieldOpt
  | Line.valid record :: rest, ids, fieldOpt =>
    match fieldOpt with
    | none =>
      match get_id_field_name record with
      | none => Except.error ("No valid ID field (_id, uuid, or id) found in " ++ fileName)
      | some field =>
        match idValue record field with
        | some v => collectIdsLoop fileName rest (setAdd ids (pyStr v)) (some field)
        | none => collectIdsLoop fileName rest ids (some field)
    | some field =>
      match idValue record field with
      | some v => collectIdsLoop fileName rest (setAdd ids (pyStr v)) (some field)
      | none => collectIdsLoop fileName rest ids (some field)

/-- collect_ids_from_file: collects the distinct id strings of a file and
the id field name determined from its first valid record. -/
def collect_ids_from_file (fileName : String) (lines : List Line) :
    Except String (List String × String) :=
  collectIdsLoop fileName lines [] none

/-- The first syntactically valid, non-blank record of a file. -/
def firstValidRecord : List Line → Option PyDict
  | [] => none
  | Line.valid r :: _ => some r
  | _ :: rest => firstValidRecord rest

/-- Pass 2 of the merge, for one file: stream the lines in order; blank
and malformed lines are skipped; a record with a non-null id value is
written if its id string is unseen (which then joins the seen set) and
counted as a duplicate otherwise; a record whose id lookup yields nothing
is ignored.  Returns the written records, the updated seen set and the
duplicate count for the file. -/
def mergeWriteFile (fld : String) : List Line → List String → List PyDict × List String × Nat
  | [], seen => ([], seen, 0)
  | Line.blank :: rest, seen => mergeWriteFile fld rest seen
  | Line.malformed _ :: rest, seen => mergeWriteFile fld rest seen
  | Line.valid record :: rest, seen =>
    match idValue record fld with
    | none => mergeWriteFile fld rest seen
    | some v =>
      if seen.contains (pyStr v) then
        let r := mergeWriteFile fld rest seen
        (r.1, r.2.1, r.2.2 + 1)
      else
        let r := mergeWriteFile fld rest (setAdd seen (pyStr v))
        (record :: r.1, r.2.1, r.2.2)

/-- Pass 2 of the merge over all files in caller order, threading the one
cross-file seen set. -/
def mergeWriteAll : List (List Line × String) → List String → List PyDict × List String × Nat
  | [], seen => ([], seen, 0)
  | (lines, fld) :: rest, seen =>
    let r1 := mergeWriteFile fld lines seen
    let r2 := mergeWriteAll rest r1.2.1
    (r1.1 ++ r2.1, r2.2.1, r1.2.2 + r2.2.2)

/-- Pass 1 of the merge: collect_ids_from_file on each file in order; the
first failure aborts the whole merge. -/
def collectFields : List (String × List Line) → Except String (List String)
  | [] => Except.ok []
  | (name, lines) :: rest =>
    match collect_ids_from_file name lines with
    | Except.error e => Except.error e
    | Except.ok r =>
      match collectFields rest with
      | Except.error e => Except.error e
      | Except.ok fs => Except.ok (r.2 :: fs)

/-- The outcome of a merge: the records written to the output in order,
the total written count and the total duplicate count. -/
structure MergeResult where
  records : List PyDict
  written : Nat
  skipped : Nat

/-- merge_jsonl_files: pass 1 resolves each file's id field (aborting on
failure before any output exists), pass 2 streams the files in caller
order writing first-seen records. -/
def merge_jsonl_files (files : List (String × List Line)) : Except String MergeResult :=
  match collectFields files with
  | Except.error e => Except.error e
  | Except.ok fields =>
    let r := mergeWriteAll ((files.map Prod.snd).zip fields) []
    Except.ok ⟨r.1, r.1.length, r.2.2⟩

/-- The merge candidates of one file: its valid records with a non-null
id value, paired with the stringified id, in line order.  This is the
spec-side description of what pass 2 considers for writing. -/
def fileCandidates (fld : String) : List Line → List (String × PyDict)
  | [] => []
  | Line.valid r :: rest =>
    match idValue r fld with
    | some v => (pyStr v, r) :: fileCandidates fld rest
    | none => fileCandidates fld rest
  | _ :: rest => fileCandidates fld rest

/-- All merge candidates across the files in caller order. -/
def candidatesAll : List (List Line × String) → List (String × PyDict)
  | [] => []
  | (lines, fld) :: rest => fileCandidates fld lines ++ candidatesAll rest

/-- Spec-side first-seen-wins deduplication: keep each candidate whose
key has not been seen, in order. -/
def dedupFirst : List String → List (String × PyDict) → List PyDict
  | _, [] => []
  | seen, (k, r) :: rest =>
    if seen.contains k then dedupFirst seen rest
    else r :: dedupFirst (setAdd seen k) rest

/-- The seen set after a run of candidates. -/
def seenAfter : List String → List (String × PyDict) → List String
  | seen, [] => seen
  | seen, (k, _) :: rest =>
    if seen.contains k then seenAfter seen rest else seenAfter (setAdd seen k) rest

/-- The number of candidates skipped as duplicates. -/
def skippedCount : List String → List (String × PyDict) → Nat
  | _, [] => 0
  | seen, (k, _) :: rest =>
    if seen.contains k then skippedCount seen rest + 1
    else skippedCount (setAdd seen k) rest

/-- add_keys: copy the record, then set each configured key in the
additions' own iteration order. -/
def add_keys (record : PyDict) (keysToAdd : List (String × JsonVal)) : PyDict :=
  keysToAdd.foldl (fun result kv => pySet result kv.1 kv.2) record

/-- Lookup in the renames dict (keys_to_modify). -/
def renameLookup : List (String × String) → String → Option String
  | [], _ => none
  | p :: rest, k => if p.1 = k then some p.2 else renameLookup rest k

/-- The loop body of modify_keys: one original entry is emitted into the
result, under its mapped name when its key is a rename source. -/
def modifyStep (keysToModify : List (String × String)) (result : PyDict)
    (kv : String × JsonVal) : PyDict :=
  match renameLookup keysToModify kv.1 with
  | some nk => pySet result nk kv.2
  | none => pySet result kv.1 kv.2

/-- modify_keys: build a fresh dict, emitting each original entry in
order, under its mapped name when its key is a rename source. -/
def modify_keys (record : PyDict) (keysToModify : List (String × String)) : PyDict :=
  record.foldl (modifyStep keysToModify) []

/-- The name an original key is emitted under by modify_keys. -/
def renameKey (keysToModify : List (String × String)) (k : String) : String :=
  (renameLookup keysToModify k).getD k

/-- record.get with a configured source-field name (config values are
parsed JSON, so a non-string field name matches no string key). -/
def fieldGet (record : PyDict) (field : JsonVal) : Option JsonVal :=
  match field with
  | JsonVal.str s => pyGet record s
  | _ => none

/-- The `if record.get(field):` test of the ChatML builder. -/
def truthyField (record : PyDict) (field : JsonVal) : Bool :=
  match fieldGet record field with
  | some v => jsonTruthy v
  | none => false

/-- One role/content message entry. -/
def roleMsg (role : String) (content : JsonVal) : JsonVal :=
  JsonVal.obj [("role", JsonVal.str role), ("content", content)]

/-- The messages list built by convert_to_chatml_function for one spec
entry: with 3 source fields the system entry first, then user, then
assistant, each included only when its source field is present and
truthy; with 2 source fields the same without the system entry. -/
def chatmlEntries (record : PyDict) (fs : List JsonVal) : List JsonVal :=
  match fs with
  | [sfield, ufield, afield] =>
    (if truthyField record sfield
     then [roleMsg "system" ((fieldGet record sfield).getD JsonVal.null)] else [])
    ++ (if truthyField record ufield
        then [roleMsg "user" ((fieldGet record ufield).getD JsonVal.null)] else [])
    ++ (if truthyField record afield
        then [roleMsg "assistant" ((fieldGet record afield).getD JsonVal.null)] else [])
  | [ufield, afield] =>
    (if truthyField record ufield
     then [roleMsg "user" ((fieldGet record ufield).getD JsonVal.null)] else [])
    ++ (if truthyField record afield
        then [roleMsg "assistant" ((fieldGet record afield).getD JsonVal.null)] else [])
  | _ => []

/-- The loop body of convert_to_chatml_function for one spec entry:
entries whose source fields are not a list of length 2 or 3 are skipped;
otherwise the messages built from the record are stored under the output
key only when the list is nonempty. -/
def chatmlStep (record result : PyDict) (kv : String × JsonVal) : PyDict :=
  match kv.2 with
  | JsonVal.arr fs =>
    if fs.length == 2 || fs.length == 3 then
      if (chatmlEntries record fs).isEmpty then result
      else pySet result kv.1 (JsonVal.arr (chatmlEntries record fs))
    else result
  | _ => result

/-- convert_to_chatml_function: copy the record; for each configured
output key whose source fields are a list of length 2 or 3, build the
messages (always reading the original record) and store them under the
output key only when the list is nonempty; other entries are skipped. -/
def convert_to_chatml_function (record : PyDict) (chatmlConfig : List (String × JsonVal)) :
    PyDict :=
  chatmlConfig.foldl (chatmlStep record) record

/-- should_delete_record: the first configured key present in the record
whose value matches the condition (membership for a list condition,
equality otherwise) marks the record for deletion; an empty conditions
dict never deletes. -/
def should_delete_record (record : PyDict) (deleteConditions : List (String × JsonVal)) :
    Bool :=
  deleteConditions.any (fun kv =>
    match pyGet record kv.1 with
    | some recordValue =>
      match kv.2 with
      | JsonVal.arr vs => vs.contains recordValue
      | cond => recordValue == cond
    | none => false)

/-- The configuration maps handed to the single-file processor, already
parsed from their JSON command-line arguments. -/
structure Config where
  additions : List (String × JsonVal)
  renames : List (String × String)
  deleteConds : List (String × JsonVal)
  chatml : List (String × JsonVal)

/-- The per-record transformation pipeline of the processing loop:
delete-check happens before this; then each stage is applied only when
its configuration map is nonempty (Python dict truthiness). -/
def pipeline (cfg : Config) (record : PyDict) : PyDict :=
  let m1 := record
  let m2 := if cfg.additions.isEmpty then m1 else add_keys m1 cfg.additions
  let m3 := if cfg.renames.isEmpty then m2 else modify_keys m2 cfg.renames
  if cfg.chatml.isEmpty then m3 else convert_to_chatml_function m3 cfg.chatml

/-- The processing loop of the single-file path: blank lines are written
back as empty lines, malformed lines are copied through unchanged (one
output line each, so the trailing newline is ensured), deleted records
are counted and omitted, and surviving records are re-serialised.
Returns the output lines and the processed and deleted counts. -/
def processLinesLoop (cfg : Config) : List Line → List String × Nat × Nat
  | [] => ([], 0, 0)
  | Line.blank :: rest =>
    let r := processLinesLoop cfg rest
    ("" :: r.1, r.2.1, r.2.2)
  | Line.malformed raw :: rest =>
    let r := processLinesLoop cfg rest
    (raw :: r.1, r.2.1, r.2.2)
  | Line.valid record :: rest =>
    if should_delete_record record cfg.deleteConds then
      let r := processLinesLoop cfg rest
      (r.1, r.2.1, r.2.2 + 1)
    else
      let r := processLinesLoop cfg rest
      (dumpsRecord (pipeline cfg record) :: r.1, r.2.1 + 1, r.2.2)

/-- The summary of a single-file run: output lines, records processed,
records deleted and the total line count (counted before the loop for
the progress display). -/
structure ProcResult where
  out : List String
  processed : Nat
  deleted : Nat
  totalLines : Nat

/-- The single-file processing stage of process(): counts the lines,
then streams them through the loop. -/
def process_file (lines : List Line) (cfg : Config) : ProcResult :=
  let total := lines.length
  let r := processLinesLoop cfg lines
  ⟨r.1, r.2.1, r.2.2, total⟩

/-- The observable events of the single-file path of process(), in
order: records parsed by validate_jsonl_file, validation failure, the
no-operations and bad-ChatML-configuration fatal errors, and the
per-line actions of the processing loop. -/
inductive Event where
  | readRecord (r : PyDict)
  | validationFailed (lineNum : Nat)
  | noOperations
  | configError (key : String)
  | deletedRecord (r : PyDict)
  | wroteRecord (r : PyDict)
  | copiedMalformed (raw : String)
  | copiedBlank

/-- Whether an event belongs to the processing loop (a record or line
being handled), as opposed to validation or configuration checking. -/
def Event.isProcessing : Event → Bool
  | Event.deletedRecord _ => true
  | Event.wroteRecord _ => true
  | Event.copiedMalformed _ => true
  | Event.copiedBlank => true
  | _ => false

/-- validate_jsonl_file: parses every non-blank line in order and stops
at the first malformed one.  Returns the parse events and whether the
file validated. -/
def validateEvents : Nat → List Line → List Event × Bool
  | _, [] => ([], true)
  | n, Line.blank :: rest => validateEvents (n + 1) rest
  | n, Line.malformed _ :: _ => ([Event.validationFailed n], false)
  | n, Line.valid r :: rest =>
    let es := validateEvents (n + 1) rest
    (Event.readRecord r :: es.1, es.2)

/-- The first ChatML spec entry that is not a list of 2 or 3 source
fields, if any: the configuration check process() performs before the
processing loop. -/
def chatmlConfigBad : List (String × JsonVal) → Option String
  | [] => none
  | kv :: rest =>
    match kv.2 with
    | JsonVal.arr fs =>
      if fs.length == 2 || fs.length == 3 then chatmlConfigBad rest else some kv.1
    | _ => some kv.1

/-- The events of the processing loop itself. -/
def procEvents (cfg : Config) : List Line → List Event
  | [] => []
  | Line.blank :: rest => Event.copiedBlank :: procEvents cfg rest
  | Line.malformed raw :: rest => Event.copiedMalformed raw :: procEvents cfg rest
  | Line.valid r :: rest =>
    if should_delete_record r cfg.deleteConds then
      Event.deletedRecord r :: procEvents cfg rest
    else
      Event.wroteRecord (pipeline cfg r) :: procEvents cfg rest

/-- The event trace of the single-file path of process(): first
validate_jsonl_file reads the whole input (parsing every record), then
the no-operations check, then the ChatML configuration check, and only
then the processing loop.  A failure at any stage ends the trace there
(typer.Exit). -/
def processTrace (lines : List Line) (cfg : Config) : List Event :=
  let v := validateEvents 1 lines
  if !v.2 then v.1
  else if cfg.additions.isEmpty && cfg.renames.isEmpty
      && cfg.deleteConds.isEmpty && cfg.chatml.isEmpty then
    v.1 ++ [Event.noOperations]
  else
    match chatmlConfigBad cfg.chatml with
    | some k => v.1 ++ [Event.configError k]
    | none => v.1 ++ procEvents cfg lines

/-- A heap of Python dict objects, for stating that the transformers
never mutate their argument: records are passed by address and dict
writes go through the store. -/
structure Store where
  cells : List PyDict

/-- The dict at an address. -/
def Store.getAt (st : Store) (a : Nat) : PyDict := (st.cells.get? a).getD []

/-- Overwrite the dict at an address. -/
def Store.setAt (st : Store) (a : Nat) (d : PyDict) : Store := ⟨st.cells.set a d⟩

/-- Allocate a fresh dict, returning its address. -/
def Store.alloc (st : Store) (d : PyDict) : Store × Nat :=
  (⟨st.cells ++ [d]⟩, st.cells.length)

/-- add_keys on the store: result = record.copy() allocates a fresh
dict, and every item assignment writes to the result's address only. -/
def add_keys_st (st : Store) (record : Nat) (keysToAdd : List (String × JsonVal)) :
    Store × Nat :=
  let a := st.alloc (st.getAt record)
  let st2 := keysToAdd.foldl
    (fun s kv => s.setAt a.2 (pySet (s.getAt a.2) kv.1 kv.2)) a.1
  (st2, a.2)

/-- modify_keys on the store: result = a fresh empty dict; the loop reads
the record's items and writes each emitted entry to the result. -/
def modify_keys_st (st : Store) (record : Nat) (keysToModify : List (String × String)) :
    Store × Nat :=
  let a := st.alloc []
  let st2 := (st.getAt record).foldl
    (fun s kv => s.setAt a.2 (modifyStep keysToModify (s.getAt a.2) kv)) a.1
  (st2, a.2)

/-- One loop iteration of convert_to_chatml_function on the store: the
record's fields are read from the store and only the result cell is
written, and only when the nonempty messages are stored. -/
def chatmlStoreStep (record result : Nat) (s : Store) (kv : String × JsonVal) : Store :=
  match kv.2 with
  | JsonVal.arr fs =>
    if fs.length == 2 || fs.length == 3 then
      if (chatmlEntries (s.getAt record) fs).isEmpty then s
      else s.setAt result
        (pySet (s.getAt result) kv.1 (JsonVal.arr (chatmlEntries (s.getAt record) fs)))
    else s
  | _ => s

/-- convert_to_chatml_function on the store: result = record.copy(); the
loop reads the record's fields from the store and writes only to the
result's address. -/
def convert_to_chatml_st (st : Store) (record : Nat) (chatmlConfig : List (String × JsonVal)) :
    Store × Nat :=
  let a := st.alloc (st.getAt record)
  (chatmlConfig.foldl (chatmlStoreStep record a.2) a.1, a.2)

/-- should_delete_record on the store: it performs reads only. -/
def should_delete_st (st : Store) (record : Nat) (deleteConditions : List (String × JsonVal)) :
    Store × Bool :=
  (st, should_delete_record (st.getAt record) deleteConditions)

/-- The inverse of a renames map: each pair swapped. -/
def invRenames (m : List (String × String)) : List (String × String) :=
  m.map (fun p => (p.2, p.1))

/-- A valid record the delete-check keeps. -/
def keptRecord (cfg : Config) : Line → Bool
  | Line.valid r => !should_delete_record r cfg.deleteConds
  | _ => false

/-- A valid record the delete-check drops. -/
def droppedRecord (cfg : Config) : Line → Bool
  | Line.valid r => should_delete_record r cfg.deleteConds
  | _ => false

/-- First example record of the merge example in the spec. -/
def exRec1 : PyDict := [("id", JsonVal.int 1), ("text", JsonVal.str "hi")]

/-- Second example record of the merge example in the spec. -/
def exRec2 : PyDict := [("id", JsonVal.int 2), ("text", JsonVal.str "bye")]

/-- Third example record of the merge example in the spec. -/
def exRec3 : PyDict := [("id", JsonVal.int 3), ("text", JsonVal.str "yo")]

/-- First input file of the merge example. -/
def exFile1 : List Line := [Line.valid exRec1, Line.valid exRec2]

/-- Second input file of the merge example (repeats the id-2 record). -/
def exFile2 : List Line := [Line.valid exRec2, Line.valid exRec3]

/-- The two example files as a merge input in caller order. -/
def exFiles : List (String × List Line) := [("a.jsonl", exFile1), ("b.jsonl", exFile2)]

/-- A file whose first valid record has no identity field while its
second record carries an id. -/
def c2Lines : List Line :=
  [Line.valid [("x", JsonVal.int 1)], Line.valid [("id", JsonVal.int 2)]]

/-- A record with an existing output key and falsy user and assistant
source fields. -/
def c3Rec : PyDict := [("out", JsonVal.str "old"), ("u", JsonVal.str ""), ("a", JsonVal.str "")]

/-- A two-source-field reshape spec targeting the existing key. -/
def c3Cfg : List (String × JsonVal) :=
  [("out", JsonVal.arr [JsonVal.str "u", JsonVal.str "a"])]

/-- The record of the spec's reshape example, with an empty system
field. -/
def c3Rec2 : PyDict :=
  [("sys", JsonVal.str ""), ("u", JsonVal.str "hello"), ("a", JsonVal.str "hi")]

/-- The three-source-field reshape spec of the spec's example. -/
def c3Cfg2 : List (String × JsonVal) :=
  [("chat", JsonVal.arr [JsonVal.str "sys", JsonVal.str "u", JsonVal.str "a"])]

/-- A configuration whose only operation is a one-source-field reshape
spec, which is invalid. -/
def c6Cfg : Config := ⟨[], [], [], [("k", JsonVal.arr [JsonVal.str "f"])]⟩

/-- A one-cell store holding one record, for the witnesses of the
no-mutation theorem. -/
def st0 : Store := ⟨[[("a", JsonVal.int 1)]]⟩

/-- Setting a key makes it read back. -/
theorem pyGet_pySet_self (d : PyDict) (k : String) (v : JsonVal) :
    pyGet (pySet d k v) k = some v := by
  induction d with
  | nil => simp [pySet, pyGet]
  | cons kv rest ih =>
    by_cases h : kv.1 = k
    · simp [pySet, pyGet, h]
    · simp [pySet, pyGet, h, ih]

/-- Setting a key leaves every other key unchanged. -/
theorem pyGet_pySet_ne (d : PyDict) (k k2 : String) (v : JsonVal) (h : k ≠ k2) :
    pyGet (pySet d k v) k2 = pyGet d k2 := by
  induction d with
  | nil => simp [pySet, pyGet, h]
  | cons kv rest ih =>
    by_cases h1 : kv.1 = k
    · simp [pySet, pyGet, h1, h]
    · simp [pySet, pyGet, h1, ih]

/-- A key not among the dict's keys reads back nothing. -/
theorem pyGet_eq_none_of_not_mem (d : PyDict) (k : String) :
    k ∉ pyKeys d → pyGet d k = none := by
  induction d with
  | nil => intro _; rfl
  | cons kv rest ih =>
    intro h
    simp only [pyKeys, List.map_cons, List.mem_cons, not_or] at h
    have h1 : kv.1 ≠ k := fun e => h.1 e.symm
    simp only [pyGet, h1, if_false]
    exact ih h.2

/-- Setting a fresh key appends it at the end. -/
theorem pySet_append_of_not_mem (d : PyDict) (k : String) (v : JsonVal) :
    k ∉ pyKeys d → pySet d k v = d ++ [(k, v)] := by
  induction d with
  | nil => intro _; rfl
  | cons kv rest ih =>
    intro h
    simp only [pyKeys, List.map_cons, List.mem_cons, not_or] at h
    have h1 : kv.1 ≠ k := fun e => h.1 e.symm
    simp [pySet, h1, ih h.2]

/-- Claim C7 (counterexample): when an added key already exists in the
record, add_keys overwrites the original value, so the original key does
not keep its original value. -/
theorem add_keys_overwrites_existing :
    add_keys [("a", JsonVal.int 1)] [("a", JsonVal.int 2)] = [("a", JsonVal.int 2)] ∧
    pyGet (add_keys [("a", JsonVal.int 1)] [("a", JsonVal.int 2)]) "a" =
      some (JsonVal.int 2) ∧
    (some (JsonVal.int 2) == some (JsonVal.int 1)) = false :=
  ⟨rfl, rfl, rfl⟩

/-- Claim C7 (amended): for every record and additions map, reading back
each added key returns its configured value, every original key remains
present, and every original key that is not itself an addition keeps its
original value. -/
theorem add_keys_reads_back (record additions : PyDict)
    (hnd : (pyKeys additions).Nodup) :
    (∀ k v, pyGet additions k = some v → pyGet (add_keys record additions) k = some v) ∧
    (∀ k, (pyGet record k).isSome → (pyGet (add_keys record additions) k).isSome) ∧
    (∀ k, pyGet additions k = none → pyGet (add_keys record additions) k = pyGet record k) := by
  induction additions generalizing record with
  | nil =>
    refine ⟨fun k v h => by simp [pyGet] at h, fun k h => h, fun k _ => rfl⟩
  | cons kv rest ih =>
    have hnd1 := List.nodup_cons.mp (show (kv.1 :: pyKeys rest).Nodup from hnd)
    have hnd2 : (pyKeys rest).Nodup := hnd1.2
    have hk : kv.1 ∉ pyKeys rest := hnd1.1
    obtain ⟨ih1, ih2, ih3⟩ := ih (pySet record kv.1 kv.2) hnd2
    have hstep : add_keys record (kv :: rest) = add_keys (pySet record kv.1 kv.2) rest := rfl
    refine ⟨?_, ?_, ?_⟩
    · intro k v h
      rw [hstep]
      by_cases e : kv.1 = k
      · subst e
        have hv : v = kv.2 := by
          have := h
          simp only [pyGet, if_pos rfl] at this
          exact (Option.some.inj this).symm
        subst hv
        have hr : pyGet rest kv.1 = none := pyGet_eq_none_of_not_mem rest kv.1 hk
        rw [ih3 kv.1 hr, pyGet_pySet_self]
      · have h2 : pyGet rest k = some v := by simpa [pyGet, e] using h
        exact ih1 k v h2
    · intro k hs
      rw [hstep]
      apply ih2
      by_cases e : kv.1 = k
      · subst e; simp [pyGet_pySet_self]
      · rw [pyGet_pySet_ne record kv.1 k kv.2 e]; exact hs
    · intro k h
      have e : kv.1 ≠ k := by
        intro e
        simp [pyGet, e] at h
      have hr : pyGet rest k = none := by simpa [pyGet, e] using h
      rw [hstep, ih3 k hr, pyGet_pySet_ne record kv.1 k kv.2 e]

/-- Witness for the amended C7 theorem at a concrete record and
additions map. -/
theorem add_keys_reads_back_witness :
    pyGet (add_keys [("a", JsonVal.int 1)] [("b", JsonVal.int 2)]) "b" =
      some (JsonVal.int 2) :=
  (add_keys_reads_back [("a", JsonVal.int 1)] [("b", JsonVal.int 2)]
    (by decide)).1 "b" (JsonVal.int 2) rfl

/-- Claim C3 (counterexample): when every source field of a reshape spec
is falsy, the built list is empty and is not stored, so an existing value
under the output key is left in place rather than overwritten. -/
theorem chatml_empty_messages_not_stored :
    convert_to_chatml_function c3Rec c3Cfg = c3Rec ∧
    pyGet (convert_to_chatml_function c3Rec c3Cfg) "out" = some (JsonVal.str "old") :=
  ⟨rfl, rfl⟩

/-- Claim C3 (amended): for a reshape spec entry with 2 or 3 source
fields, the role/content list is built as the claim describes (system
entry only when present and truthy, then user, then assistant under the
same condition), and it is stored under the output key, overwriting any
existing value, only when it is nonempty; an empty list leaves the record
unchanged at that key.  Other keys are never touched.  The spec's
three-field example with an empty system field yields exactly the user
and assistant entries. -/
theorem chatml_messages_shape :
    (∀ (record : PyDict) (k : String) (fs : List JsonVal),
      fs.length = 2 ∨ fs.length = 3 →
      (pyGet (convert_to_chatml_function record [(k, JsonVal.arr fs)]) k =
        (if (chatmlEntries record fs).isEmpty then pyGet record k
         else some (JsonVal.arr (chatmlEntries record fs))) ∧
       (∀ k2, k2 ≠ k →
         pyGet (convert_to_chatml_function record [(k, JsonVal.arr fs)]) k2 =
           pyGet record k2))) ∧
    pyGet (convert_to_chatml_function c3Rec2 c3Cfg2) "chat" =
      some (JsonVal.arr
        [roleMsg "user" (JsonVal.str "hello"), roleMsg "assistant" (JsonVal.str "hi")]) := by
  constructor
  · intro record k fs hlen
    have hl : (fs.length == 2 || fs.length == 3) = true := by
      rcases hlen with h | h <;> simp [h]
    have hconv : convert_to_chatml_function record [(k, JsonVal.arr fs)] =
        (if (chatmlEntries record fs).isEmpty then record
         else pySet record k (JsonVal.arr (chatmlEntries record fs))) := by
      simp [convert_to_chatml_function, chatmlStep, hl]
    by_cases he : (chatmlEntries record fs).isEmpty
    · rw [hconv]
      simp [he]
    · rw [hconv]
      simp only [he, if_false, Bool.false_eq_true]
      refine ⟨?_, ?_⟩
      · simp [pyGet_pySet_self, he]
      · intro k2 hk2
        exact pyGet_pySet_ne record k k2 _ (fun e => hk2 e.symm)
  · rfl

/-- Witness for the amended C3 theorem at the claim's own two-field
example with both source fields falsy. -/
theorem chatml_messages_shape_witness :
    pyGet (convert_to_chatml_function c3Rec [("out", JsonVal.arr [JsonVal.str "u", JsonVal.str "a"])]) "out" =
      (if (chatmlEntries c3Rec [JsonVal.str "u", JsonVal.str "a"]).isEmpty
       then pyGet c3Rec "out"
       else some (JsonVal.arr (chatmlEntries c3Rec [JsonVal.str "u", JsonVal.str "a"]))) :=
  ((chatml_messages_shape.1 c3Rec "out" [JsonVal.str "u", JsonVal.str "a"]
    (Or.inl rfl))).1

/-- A successful rename lookup comes from an entry of the map. -/
theorem renameLookup_mem (m : List (String × String)) (a b : String) :
    renameLookup m a = some b → (a, b) ∈ m := by
  induction m with
  | nil => intro h; simp [renameLookup] at h
  | cons p rest ih =>
    intro h
    by_cases e : p.1 = a
    · simp only [renameLookup, if_pos e] at h
      apply List.mem_cons.mpr
      left
      cases p
      simp_all
    · simp only [renameLookup, if_neg e] at h
      exact List.mem_cons_of_mem _ (ih h)

/-- With distinct sources, lookup finds the entry of a member. -/
theorem renameLookup_eq_some_of_mem (m : List (String × String)) (a b : String) :
    (a, b) ∈ m → (m.map Prod.fst).Nodup → renameLookup m a = some b := by
  induction m with
  | nil => intro h _; cases h
  | cons p rest ih =>
    intro h hnd
    have hnd1 := List.nodup_cons.mp (show (p.1 :: rest.map Prod.fst).Nodup from hnd)
    rcases List.mem_cons.mp h with he | hm
    · rw [← he]
      simp [renameLookup]
    · have hne : p.1 ≠ a := by
        intro e
        exact hnd1.1 (by
          apply List.mem_map.mpr
          exact ⟨(a, b), hm, e.symm ▸ rfl⟩)
      simp only [renameLookup, if_neg hne]
      exact ih hm hnd1.2

/-- A key that is not a rename source looks up to nothing. -/
theorem renameLookup_eq_none (m : List (String × String)) (a : String) :
    a ∉ m.map Prod.fst → renameLookup m a = none := by
  induction m with
  | nil => intro _; rfl
  | cons p rest ih =>
    intro h
    simp only [List.map_cons, List.mem_cons, not_or] at h
    have hne : p.1 ≠ a := fun e => h.1 e.symm
    simp only [renameLookup, if_neg hne]
    exact ih h.2

/-- In a list of pairs with distinct first components, two members with
equal first components are the same pair. -/
theorem entry_eq_of_fst_eq {β : Type} (l : List (String × β)) (x y : String × β) :
    (l.map Prod.fst).Nodup → x ∈ l → y ∈ l → x.1 = y.1 → x = y := by
  induction l with
  | nil => intro _ hx; cases hx
  | cons p rest ih =>
    intro hnd hx hy he
    have hnd1 := List.nodup_cons.mp (show (p.1 :: rest.map Prod.fst).Nodup from hnd)
    rcases List.mem_cons.mp hx with hx1 | hx2 <;> rcases List.mem_cons.mp hy with hy1 | hy2
    · rw [hx1, hy1]
    · exfalso
      apply hnd1.1
      apply List.mem_map.mpr
      exact ⟨y, hy2, by rw [← he, hx1]⟩
    · exfalso
      apply hnd1.1
      apply List.mem_map.mpr
      exact ⟨x, hx2, by rw [he, hy1]⟩
    · exact ih hnd1.2 hx2 hy2 he

/-- The sources of the inverse renames are the targets of the renames. -/
theorem invRenames_map_fst (m : List (String × String)) :
    (invRenames m).map Prod.fst = m.map Prod.snd := by
  simp [invRenames, List.map_map]

/-- Applying the inverse renames undoes the rename of any key that is a
source or at least not a target. -/
theorem renameKey_inv (m : List (String × String))
    (h1 : (m.map Prod.fst).Nodup) (h2 : (m.map Prod.snd).Nodup) (k : String)
    (hk : k ∈ m.map Prod.fst ∨ k ∉ m.map Prod.snd) :
    renameKey (invRenames m) (renameKey m k) = k := by
  by_cases hs : k ∈ m.map Prod.fst
  · obtain ⟨p, hp, he⟩ := List.mem_map.mp hs
    have hpk : (k, p.2) ∈ m := by
      have : p = (k, p.2) := by cases p; simp_all
      rw [← this]; exact hp
    have hlook : renameLookup m k = some p.2 := renameLookup_eq_some_of_mem m k p.2 hpk h1
    have hinv : (p.2, k) ∈ invRenames m :=
      List.mem_map.mpr ⟨(k, p.2), hpk, rfl⟩
    have hndinv : ((invRenames m).map Prod.fst).Nodup := by
      rw [invRenames_map_fst]; exact h2
    have hlook2 : renameLookup (invRenames m) p.2 = some k :=
      renameLookup_eq_some_of_mem (invRenames m) p.2 k hinv hndinv
    simp [renameKey, hlook, hlook2]
  · have ht : k ∉ m.map Prod.snd := hk.resolve_left hs
    have hlook : renameLookup m k = none := renameLookup_eq_none m k hs
    have hlook2 : renameLookup (invRenames m) k = none := by
      apply renameLookup_eq_none
      rw [invRenames_map_fst]
      exact ht
    simp [renameKey, hlook, hlook2]

/-- Folding fresh-key insertions over a dict appends the entries in
order. -/
theorem foldl_pySet_fresh (xs : List (String × JsonVal)) :
    ∀ acc : PyDict, (pyKeys acc ++ xs.map Prod.fst).Nodup →
      xs.foldl (fun d kv => pySet d kv.1 kv.2) acc = acc ++ xs := by
  induction xs with
  | nil => intro acc _; simp
  | cons kv rest ih =>
    intro acc hnd
    have hmem : kv.1 ∉ pyKeys acc := by
      have hd := (List.nodup_append.mp hnd).2.2
      intro hin
      exact hd hin (List.mem_cons_self _ _)
    have hstep : pySet acc kv.1 kv.2 = acc ++ [(kv.1, kv.2)] :=
      pySet_append_of_not_mem acc kv.1 kv.2 hmem
    have hnd2 : (pyKeys (acc ++ [(kv.1, kv.2)]) ++ rest.map Prod.fst).Nodup := by
      have hre : pyKeys (acc ++ [(kv.1, kv.2)]) ++ rest.map Prod.fst =
          pyKeys acc ++ (kv :: rest).map Prod.fst := by
        simp [pyKeys, List.append_assoc]
      rw [hre]
      exact hnd
    have := ih (acc ++ [(kv.1, kv.2)]) hnd2
    calc (kv :: rest).foldl (fun d kv => pySet d kv.1 kv.2) acc
        = rest.foldl (fun d kv => pySet d kv.1 kv.2) (pySet acc kv.1 kv.2) := rfl
      _ = rest.foldl (fun d kv => pySet d kv.1 kv.2) (acc ++ [(kv.1, kv.2)]) := by rw [hstep]
      _ = (acc ++ [(kv.1, kv.2)]) ++ rest := this
      _ = acc ++ (kv :: rest) := by
          cases kv
          simp

/-- The loop body of modify_keys inserts under the emitted name. -/
theorem modifyStep_eq (m : List (String × String)) (d : PyDict) (kv : String × JsonVal) :
    modifyStep m d kv = pySet d (renameKey m kv.1) kv.2 := by
  cases h : renameLookup m kv.1 <;> simp [modifyStep, renameKey, h]

/-- When the emitted key names are distinct, modify_keys is exactly the
entrywise rename of the record: original key order and values are
preserved. -/
theorem modify_keys_eq_map (record : PyDict) (m : List (String × String))
    (h : (record.map (fun kv => renameKey m kv.1)).Nodup) :
    modify_keys record m = record.map (fun kv => (renameKey m kv.1, kv.2)) := by
  have h1 : modify_keys record m =
      record.foldl (fun d kv => pySet d (renameKey m kv.1) kv.2) [] := by
    unfold modify_keys
    exact List.foldl_ext _ _ _ (fun d kv _ => modifyStep_eq m d kv)
  have h2 : record.foldl (fun d kv => pySet d (renameKey m kv.1) kv.2) [] =
      (record.map (fun kv => (renameKey m kv.1, kv.2))).foldl
        (fun d kv => pySet d kv.1 kv.2) [] := by
    rw [List.foldl_map]
  have h3 : ((record.map (fun kv => (renameKey m kv.1, kv.2))).map Prod.fst) =
      record.map (fun kv => renameKey m kv.1) := by
    rw [List.map_map]
    rfl
  have h4 : (pyKeys ([] : PyDict) ++
      (record.map (fun kv => (renameKey m kv.1, kv.2))).map Prod.fst).Nodup := by
    simp only [pyKeys, List.map_nil, List.nil_append, h3]
    exact h
  rw [h1, h2, foldl_pySet_fresh _ _ h4]
  simp

/-- List map respecting a pointwise equality on members. -/
theorem map_congr_mem {α β : Type} (l : List α) (f g : α → β) :
    (∀ a ∈ l, f a = g a) → l.map f = l.map g :=
  List.map_congr_left

/-- Claim C8 (counterexample): a rename map with no target collisions
(its single target is trivially collision-free) whose target captures an
untouched record key: renaming with the map and then its inverse does not
restore the original key set. -/
theorem rename_roundtrip_captures_untouched_key :
    (([("x", "b")] : List (String × String)).map Prod.snd).Nodup ∧
    modify_keys [("b", JsonVal.int 2)] [("x", "b")] = [("b", JsonVal.int 2)] ∧
    modify_keys (modify_keys [("b", JsonVal.int 2)] [("x", "b")])
      (invRenames [("x", "b")]) = [("x", JsonVal.int 2)] ∧
    pyGet (modify_keys (modify_keys [("b", JsonVal.int 2)] [("x", "b")])
      (invRenames [("x", "b")])) "b" = none :=
  ⟨by decide, rfl, rfl, rfl⟩

/-- Claim C8 (amended): rename-fields emits the original entries in
original key order with values never altered, and renaming with a map
and then its inverse is the identity, provided the map has distinct
sources and distinct targets and no target occurs as a record key unless
that key is itself a rename source. -/
theorem rename_roundtrip_identity (record : PyDict) (m : List (String × String))
    (h0 : (pyKeys record).Nodup)
    (h1 : (m.map Prod.fst).Nodup)
    (h2 : (m.map Prod.snd).Nodup)
    (h3 : ∀ k, k ∈ pyKeys record → k ∈ m.map Prod.snd → k ∈ m.map Prod.fst) :
    modify_keys record m = record.map (fun kv => (renameKey m kv.1, kv.2)) ∧
    modify_keys (modify_keys record m) (invRenames m) = record := by
  have hcond : ∀ k, k ∈ pyKeys record → (k ∈ m.map Prod.fst ∨ k ∉ m.map Prod.snd) := by
    intro k hkrec
    by_cases ht : k ∈ m.map Prod.snd
    · exact Or.inl (h3 k hkrec ht)
    · exact Or.inr ht
  have hinv : ∀ k, k ∈ pyKeys record → renameKey (invRenames m) (renameKey m k) = k :=
    fun k hkrec => renameKey_inv m h1 h2 k (hcond k hkrec)
  have hmapped : (record.map (fun kv => renameKey m kv.1)).Nodup := by
    have he : record.map (fun kv => renameKey m kv.1) =
        (pyKeys record).map (renameKey m) := by
      simp [pyKeys, List.map_map]
    rw [he]
    refine List.Nodup.map_on ?_ h0
    intro x hx y hy hxy
    have : renameKey (invRenames m) (renameKey m x) = renameKey (invRenames m) (renameKey m y) := by
      rw [hxy]
    rw [renameKey_inv m h1 h2 x (hcond x hx), renameKey_inv m h1 h2 y (hcond y hy)] at this
    exact this
  have first := modify_keys_eq_map record m hmapped
  refine ⟨first, ?_⟩
  have hmapped2 :
      ((record.map (fun kv => (renameKey m kv.1, kv.2))).map
        (fun kv => renameKey (invRenames m) kv.1)).Nodup := by
    have he : (record.map (fun kv => (renameKey m kv.1, kv.2))).map
        (fun kv => renameKey (invRenames m) kv.1) =
        record.map (fun kv => renameKey (invRenames m) (renameKey m kv.1)) := by
      rw [List.map_map]
      rfl
    have he2 : record.map (fun kv => renameKey (invRenames m) (renameKey m kv.1)) =
        record.map (fun kv => kv.1) := by
      apply map_congr_mem
      intro kv hkv
      exact hinv kv.1 (List.mem_map.mpr ⟨kv, hkv, rfl⟩)
    rw [he, he2]
    exact h0
  have second := modify_keys_eq_map (record.map (fun kv => (renameKey m kv.1, kv.2)))
    (invRenames m) hmapped2
  rw [first, second, List.map_map]
  have hfinal : record.map
      ((fun kv => (renameKey (invRenames m) kv.1, kv.2)) ∘
        (fun kv => (renameKey m kv.1, kv.2))) =
      record.map (fun kv => kv) := by
    apply map_congr_mem
    intro kv hkv
    have : renameKey (invRenames m) (renameKey m kv.1) = kv.1 :=
      hinv kv.1 (List.mem_map.mpr ⟨kv, hkv, rfl⟩)
    simp [Function.comp, this]
  rw [hfinal, List.map_id']

/-- Witness for the amended C8 theorem: a swap rename map round-trips a
concrete record back to itself. -/
theorem rename_roundtrip_identity_witness :
    modify_keys (modify_keys [("a", JsonVal.int 1), ("b", JsonVal.int 2)]
        [("a", "b"), ("b", "a")])
      (invRenames [("a", "b"), ("b", "a")]) =
      [("a", JsonVal.int 1), ("b", JsonVal.int 2)] :=
  (rename_roundtrip_identity [("a", JsonVal.int 1), ("b", JsonVal.int 2)]
    [("a", "b"), ("b", "a")] (by decide) (by decide) (by decide) (by decide)).2

/-- Pass 2 on one file equals first-seen-wins deduplication of the
file's candidates. -/
theorem mergeWriteFile_eq (fld : String) (lines : List Line) :
    ∀ seen, mergeWriteFile fld lines seen =
      (dedupFirst seen (fileCandidates fld lines),
       seenAfter seen (fileCandidates fld lines),
       skippedCount seen (fileCandidates fld lines)) := by
  induction lines with
  | nil => intro seen; rfl
  | cons l rest ih =>
    intro seen
    cases l with
    | blank => simpa [mergeWriteFile, fileCandidates] using ih seen
    | malformed raw => simpa [mergeWriteFile, fileCandidates] using ih seen
    | valid record =>
      cases hv : idValue record fld with
      | none => simpa [mergeWriteFile, fileCandidates, hv] using ih seen
      | some v =>
        by_cases hc : pyStr v ∈ seen <;>
          simp [mergeWriteFile, fileCandidates, hv, hc, ih, dedupFirst, seenAfter,
            skippedCount]

/-- First-seen-wins deduplication splits over an append, threading the
seen set. -/
theorem dedupFirst_append (xs ys : List (String × PyDict)) :
    ∀ seen,
      dedupFirst seen (xs ++ ys) =
        dedupFirst seen xs ++ dedupFirst (seenAfter seen xs) ys ∧
      seenAfter seen (xs ++ ys) = seenAfter (seenAfter seen xs) ys ∧
      skippedCount seen (xs ++ ys) =
        skippedCount seen xs + skippedCount (seenAfter seen xs) ys := by
  induction xs with
  | nil => intro seen; simp [dedupFirst, seenAfter, skippedCount]
  | cons p rest ih =>
    intro seen
    obtain ⟨k, r⟩ := p
    by_cases hc : k ∈ seen
    · have h := ih seen
      refine ⟨?_, ?_, ?_⟩
      · simp [dedupFirst, seenAfter, hc, h.1]
      · simp [seenAfter, hc, h.2.1]
      · simp [skippedCount, seenAfter, hc, h.2.2]
        all_goals omega
    · have h := ih (setAdd seen k)
      refine ⟨?_, ?_, ?_⟩
      · simp [dedupFirst, seenAfter, hc, h.1]
      · simp [seenAfter, hc, h.2.1]
      · simp [skippedCount, seenAfter, hc, h.2.2]

/-- Pass 2 over all files equals first-seen-wins deduplication of all
candidates in file-then-line order. -/
theorem mergeWriteAll_eq (L : List (List Line × String)) :
    ∀ seen, mergeWriteAll L seen =
      (dedupFirst seen (candidatesAll L), seenAfter seen (candidatesAll L),
       skippedCount seen (candidatesAll L)) := by
  induction L with
  | nil => intro seen; rfl
  | cons fl rest ih =>
    intro seen
    obtain ⟨lines, fld⟩ := fl
    have h1 := mergeWriteFile_eq fld lines seen
    have h2 := ih (seenAfter seen (fileCandidates fld lines))
    have ha := dedupFirst_append (fileCandidates fld lines) (candidatesAll rest) seen
    simp [mergeWriteAll, candidatesAll, h1, h2, ha.1, ha.2.1, ha.2.2]

/-- Claim C1: merging deduplicates by stringified identity value with
first-seen-wins across files in caller order — the output is exactly the
first-seen deduplication of all candidates, files in order, each file's
records in original line order — and on the spec's example the output
records carry ids 1, 2, 3 in that order with exactly one duplicate
skipped. -/
theorem merge_first_seen_wins :
    (∀ (files : List (String × List Line)) (fields : List String),
      collectFields files = Except.ok fields →
      merge_jsonl_files files = Except.ok
        ⟨dedupFirst [] (candidatesAll ((files.map Prod.snd).zip fields)),
         (dedupFirst [] (candidatesAll ((files.map Prod.snd).zip fields))).length,
         skippedCount [] (candidatesAll ((files.map Prod.snd).zip fields))⟩) ∧
    merge_jsonl_files exFiles = Except.ok ⟨[exRec1, exRec2, exRec3], 3, 1⟩ := by
  constructor
  · intro files fields h
    simp [merge_jsonl_files, h, mergeWriteAll_eq]
  · rfl

/-- Witness for the C1 theorem: its general part applied to the spec's
example files (whose pass 1 yields the id field for both files). -/
theorem merge_first_seen_wins_witness :
    merge_jsonl_files exFiles = Except.ok
      ⟨dedupFirst [] (candidatesAll ((exFiles.map Prod.snd).zip ["id", "id"])),
       (dedupFirst [] (candidatesAll ((exFiles.map Prod.snd).zip ["id", "id"]))).length,
       skippedCount [] (candidatesAll ((exFiles.map Prod.snd).zip ["id", "id"]))⟩ :=
  merge_first_seen_wins.1 exFiles ["id", "id"] rfl

/-- Claim C4: during merge pass 2, a record whose lookup under the
file's identity field yields nothing or null is neither written nor
counted as a duplicate: removing it from the file changes nothing in
the pass's outcome. -/
theorem merge_null_id_record_silently_dropped (fld : String) (pre post : List Line)
    (record : PyDict) :
    (pyGet record fld = none ∨ pyGet record fld = some JsonVal.null) →
    ∀ seen, mergeWriteFile fld (pre ++ Line.valid record :: post) seen =
      mergeWriteFile fld (pre ++ post) seen := by
  intro h
  have hid : idValue record fld = none := by
    rcases h with h | h <;> simp [idValue, h]
  induction pre with
  | nil => intro seen; simp [mergeWriteFile, hid]
  | cons l rest ih =>
    intro seen
    cases l with
    | blank => simpa [mergeWriteFile] using ih seen
    | malformed raw => simpa [mergeWriteFile] using ih seen
    | valid r =>
      cases hv : idValue r fld with
      | none => simpa [mergeWriteFile, hv] using ih seen
      | some v =>
        by_cases hc : seen.contains (pyStr v) = true <;>
          simp [mergeWriteFile, hv, hc, ih]

/-- Witness for the C4 theorem: a record with no id field is dropped
from a one-line file without affecting the merge pass. -/
theorem merge_null_id_record_silently_dropped_witness :
    mergeWriteFile "id" ([] ++ Line.valid [("x", JsonVal.int 1)] :: []) [] =
      mergeWriteFile "id" ([] ++ []) [] :=
  merge_null_id_record_silently_dropped "id" [] [] [("x", JsonVal.int 1)] (Or.inl rfl) []

/-- Once the id field of a file is fixed, the collection loop always
succeeds with that field. -/
theorem collectIdsLoop_fixed (fileName field : String) (lines : List Line) :
    ∀ ids, ∃ ids2,
      collectIdsLoop fileName lines ids (some field) = Except.ok (ids2, field) := by
  induction lines with
  | nil => intro ids; exact ⟨ids, rfl⟩
  | cons l rest ih =>
    intro ids
    cases l with
    | blank => exact ih ids
    | malformed raw => exact ih ids
    | valid r =>
      cases hv : idValue r field with
      | none => simpa [collectIdsLoop, hv] using ih ids
      | some v => simpa [collectIdsLoop, hv] using ih (setAdd ids (pyStr v))

/-- Claim C2 (counterexample): a file whose first valid record has no
identity field is rejected even though a later record of the file does
yield one, refuting the claimed equivalence. -/
theorem collect_ids_error_despite_later_id :
    collect_ids_from_file "data.jsonl" c2Lines =
      Except.error ("No valid ID field (_id, uuid, or id) found in data.jsonl") ∧
    get_id_field_name [("id", JsonVal.int 2)] = some "id" ∧
    c2Lines.get? 1 = some (Line.valid [("id", JsonVal.int 2)]) :=
  ⟨rfl, rfl, rfl⟩

/-- Claim C2 (amended): the identity field name is determined exactly
once, from the first syntactically valid non-blank record, as the first
of the priority fields present in that record; the error is signalled
iff the file has no valid record or its first valid record yields no
identity field (a later record's identity field does not prevent the
error). -/
theorem collect_ids_field_from_first_valid_record (fileName : String) (lines : List Line) :
    (firstValidRecord lines = none →
      collect_ids_from_file fileName lines =
        Except.error ("No valid records found in " ++ fileName)) ∧
    (∀ r, firstValidRecord lines = some r →
      (get_id_field_name r = none →
        collect_ids_from_file fileName lines =
          Except.error ("No valid ID field (_id, uuid, or id) found in " ++ fileName)) ∧
      (∀ field, get_id_field_name r = some field →
        ∃ ids, collect_ids_from_file fileName lines = Except.ok (ids, field))) := by
  unfold collect_ids_from_file
  induction lines with
  | nil =>
    refine ⟨fun _ => rfl, fun r hr => ?_⟩
    simp [firstValidRecord] at hr
  | cons l rest ih =>
    cases l with
    | blank => exact ih
    | malformed raw => exact ih
    | valid r0 =>
      constructor
      · intro h
        simp [firstValidRecord] at h
      · intro r hr
        have hr0 : r = r0 := by
          have h2 : some r0 = some r := hr
          exact (Option.some.inj h2).symm
        subst hr0
        constructor
        · intro hnone
          simp [collectIdsLoop, hnone]
        · intro field hfield
          cases hv : idValue r field with
          | none =>
            simpa [collectIdsLoop, hfield, hv] using
              collectIdsLoop_fixed fileName field rest []
          | some v =>
            simpa [collectIdsLoop, hfield, hv] using
              collectIdsLoop_fixed fileName field rest (setAdd [] (pyStr v))

/-- Witness for the amended C2 theorem at a file whose first valid
record fixes the id field. -/
theorem collect_ids_field_from_first_valid_record_witness :
    ∃ ids, collect_ids_from_file "a.jsonl" exFile1 = Except.ok (ids, "id") :=
  ((collect_ids_field_from_first_valid_record "a.jsonl" exFile1).2 exRec1 rfl).2 "id" rfl

/-- The processing loop's counters count exactly the kept and dropped
valid records, and every malformed raw line reappears in the output. -/
theorem processLoop_counts (cfg : Config) (lines : List Line) :
    (processLinesLoop cfg lines).2.1 = lines.countP (keptRecord cfg) ∧
    (processLinesLoop cfg lines).2.2 = lines.countP (droppedRecord cfg) ∧
    ∀ raw, Line.malformed raw ∈ lines → raw ∈ (processLinesLoop cfg lines).1 := by
  induction lines with
  | nil => exact ⟨rfl, rfl, fun raw h => absurd h (List.not_mem_nil _)⟩
  | cons l rest ih =>
    obtain ⟨ih1, ih2, ih3⟩ := ih
    cases l with
    | blank =>
      refine ⟨?_, ?_, ?_⟩
      · simp [processLinesLoop, List.countP_cons, keptRecord, ih1]
      · simp [processLinesLoop, List.countP_cons, droppedRecord, ih2]
      · intro raw h
        have hm : Line.malformed raw ∈ rest := by
          rcases List.mem_cons.mp h with h1 | h2
          · exact Line.noConfusion h1
          · exact h2
        exact List.mem_cons_of_mem _ (ih3 raw hm)
    | malformed raw0 =>
      refine ⟨?_, ?_, ?_⟩
      · simp [processLinesLoop, List.countP_cons, keptRecord, ih1]
      · simp [processLinesLoop, List.countP_cons, droppedRecord, ih2]
      · intro raw h
        rcases List.mem_cons.mp h with h1 | h2
        · have he : raw = raw0 := by injection h1
          rw [he]
          exact List.mem_cons_self _ _
        · exact List.mem_cons_of_mem _ (ih3 raw h2)
    | valid r =>
      by_cases hd : should_delete_record r cfg.deleteConds = true
      · refine ⟨?_, ?_, ?_⟩
        · simp [processLinesLoop, hd, List.countP_cons, keptRecord, ih1]
        · simp [processLinesLoop, hd, List.countP_cons, droppedRecord, ih2]
        · intro raw h
          have hm : Line.malformed raw ∈ rest := by
            rcases List.mem_cons.mp h with h1 | h2
            · exact Line.noConfusion h1
            · exact h2
          simpa [processLinesLoop, hd] using ih3 raw hm
      · refine ⟨?_, ?_, ?_⟩
        · simp [processLinesLoop, hd, List.countP_cons, keptRecord, ih1]
        · simp [processLinesLoop, hd, List.countP_cons, droppedRecord, ih2]
        · intro raw h
          have hm : Line.malformed raw ∈ rest := by
            rcases List.mem_cons.mp h with h1 | h2
            · exact Line.noConfusion h1
            · exact h2
          have := ih3 raw hm
          simp only [processLinesLoop, hd]
          simp only [Bool.false_eq_true, if_false]
          exact List.mem_cons_of_mem _ this

/-- Every line is exactly one of: kept record, dropped record, malformed,
blank — so the four counts partition the line count. -/
theorem line_counts_partition (cfg : Config) (lines : List Line) :
    lines.countP (keptRecord cfg) + lines.countP (droppedRecord cfg)
      + lines.countP Line.isMalformed + lines.countP Line.isBlank = lines.length := by
  induction lines with
  | nil => rfl
  | cons l rest ih =>
    cases l with
    | blank =>
      simp [List.countP_cons, keptRecord, droppedRecord, Line.isMalformed, Line.isBlank]
      all_goals omega
    | malformed raw =>
      simp [List.countP_cons, keptRecord, droppedRecord, Line.isMalformed, Line.isBlank]
      all_goals omega
    | valid r =>
      by_cases hd : should_delete_record r cfg.deleteConds = true <;>
        · simp [List.countP_cons, keptRecord, droppedRecord, Line.isMalformed,
            Line.isBlank, hd]
          all_goals omega

/-- Claim C5: the single-file processing loop reports the processed
count (valid records that survive the delete-check), the deleted count
(valid records removed), and the total line count; malformed lines are
copied to the output unchanged and are counted in neither of the two
record counts — the four categories partition the total. -/
theorem single_file_counts (lines : List Line) (cfg : Config) :
    (process_file lines cfg).totalLines = lines.length ∧
    (process_file lines cfg).processed = lines.countP (keptRecord cfg) ∧
    (process_file lines cfg).deleted = lines.countP (droppedRecord cfg) ∧
    (process_file lines cfg).processed + (process_file lines cfg).deleted
      + lines.countP Line.isMalformed + lines.countP Line.isBlank = lines.length ∧
    (∀ raw, Line.malformed raw ∈ lines → raw ∈ (process_file lines cfg).out) := by
  have h := processLoop_counts cfg lines
  have hp := line_counts_partition cfg lines
  have e1 : (process_file lines cfg).processed = lines.countP (keptRecord cfg) := h.1
  have e2 : (process_file lines cfg).deleted = lines.countP (droppedRecord cfg) := h.2.1
  refine ⟨rfl, e1, e2, ?_, h.2.2⟩
  rw [e1, e2]
  exact hp

/-- Witness for the C5 theorem: a malformed line is copied through the
loop unchanged. -/
theorem single_file_counts_witness :
    "oops" ∈ (process_file [Line.malformed "oops"] ⟨[], [], [], []⟩).out :=
  (single_file_counts [Line.malformed "oops"] ⟨[], [], [], []⟩).2.2.2.2 "oops"
    (List.mem_cons_self _ _)

/-- String concatenation concatenates the character lists. -/
theorem toList_append_chars (s t : String) : (s ++ t).toList = s.toList ++ t.toList :=
  String.data_append s t

/-- The serialised form of a record starts with an opening brace, so it
is never blank. -/
theorem isBlankStr_dumpsRecord (r : PyDict) : isBlankStr (dumpsRecord r) = false := by
  show (("\x7b" ++ dumpsFields r ++ "\x7d").toList.all Char.isWhitespace) = false
  rw [toList_append_chars, toList_append_chars]
  have hb : ("\x7b".toList.all Char.isWhitespace) = false := by decide
  simp [List.all_append, hb]

/-- Blank-line counts through the processing loop: every blank input
line yields a blank output line and nothing else is blank. -/
theorem processLoop_blank_count (cfg : Config) (lines : List Line) :
    (∀ l ∈ lines, l.wfLine = true) →
    (processLinesLoop cfg lines).1.countP (fun s => isBlankStr s) =
      lines.countP Line.isBlank := by
  induction lines with
  | nil => intro _; rfl
  | cons l rest ih =>
    intro h
    have hrest := ih (fun x hx => h x (List.mem_cons_of_mem _ hx))
    cases l with
    | blank =>
      have h0 : isBlankStr "" = true := rfl
      simp [processLinesLoop, List.countP_cons, hrest, Line.isBlank, h0]
    | malformed raw =>
      have hw : isBlankStr raw = false := by
        have := h (Line.malformed raw) (List.mem_cons_self _ _)
        simpa [Line.wfLine] using this
      simp [processLinesLoop, List.countP_cons, hrest, hw, Line.isBlank]
    | valid r =>
      by_cases hd : should_delete_record r cfg.deleteConds = true
      · simp [processLinesLoop, hd, List.countP_cons, hrest, Line.isBlank]
      · simp [processLinesLoop, hd, List.countP_cons, hrest, Line.isBlank,
          isBlankStr_dumpsRecord]

/-- Claim C10: merge pass 2 skips blank lines entirely (removing them
from the input changes nothing), every line of the merge output is a
serialised record and hence non-blank, and the single-file path by
contrast emits one blank output line per blank input line. -/
theorem merge_output_no_blank_lines :
    (∀ (fld : String) (lines : List Line) (seen : List String),
      mergeWriteFile fld (lines.filter (fun l => !l.isBlank)) seen =
        mergeWriteFile fld lines seen) ∧
    (∀ (files : List (String × List Line)) (res : MergeResult),
      merge_jsonl_files files = Except.ok res →
      ∀ s ∈ res.records.map dumpsRecord, isBlankStr s = false) ∧
    (∀ (lines : List Line) (cfg : Config), (∀ l ∈ lines, l.wfLine = true) →
      (process_file lines cfg).out.countP (fun s => isBlankStr s) =
        lines.countP Line.isBlank) := by
  refine ⟨?_, ?_, ?_⟩
  · intro fld lines
    induction lines with
    | nil => intro seen; rfl
    | cons l rest ih =>
      intro seen
      cases l with
      | blank =>
        have hf : List.filter (fun l => !l.isBlank) (Line.blank :: rest) =
            List.filter (fun l => !l.isBlank) rest := by
          simp [Line.isBlank]
        rw [hf]
        exact ih seen
      | malformed raw =>
        have hf : List.filter (fun l => !l.isBlank) (Line.malformed raw :: rest) =
            Line.malformed raw :: List.filter (fun l => !l.isBlank) rest := by
          simp [Line.isBlank]
        rw [hf]
        simp only [mergeWriteFile]
        exact ih seen
      | valid r =>
        have hf : List.filter (fun l => !l.isBlank) (Line.valid r :: rest) =
            Line.valid r :: List.filter (fun l => !l.isBlank) rest := by
          simp [Line.isBlank]
        rw [hf]
        cases hv : idValue r fld with
        | none =>
          simp only [mergeWriteFile, hv]
          exact ih seen
        | some v =>
          by_cases hc : pyStr v ∈ seen <;> simp [mergeWriteFile, hv, hc, ih]
  · intro files res _ s hs
    obtain ⟨r, _, rfl⟩ := List.mem_map.mp hs
    exact isBlankStr_dumpsRecord r
  · intro lines cfg h
    exact processLoop_blank_count cfg lines h

/-- Witness for the C10 theorem: blank-insensitive pass 2 on the first
example file, a non-blank output line of the example merge, and the
blank-preserving single-file loop on a blank line. -/
theorem merge_output_no_blank_lines_witness :
    mergeWriteFile "id" (exFile1.filter (fun l => !l.isBlank)) [] =
      mergeWriteFile "id" exFile1 [] ∧
    isBlankStr (dumpsRecord exRec1) = false ∧
    (process_file [Line.blank] ⟨[], [], [], []⟩).out.countP (fun s => isBlankStr s) =
      ([Line.blank] : List Line).countP Line.isBlank :=
  ⟨merge_output_no_blank_lines.1 "id" exFile1 [],
   merge_output_no_blank_lines.2.1 exFiles ⟨[exRec1, exRec2, exRec3], 3, 1⟩ rfl
     (dumpsRecord exRec1) (List.mem_map_of_mem _ (List.mem_cons_self _ _)),
   merge_output_no_blank_lines.2.2 [Line.blank] ⟨[], [], [], []⟩ (by decide)⟩

/-- Validation produces only read and failure events, never processing
events. -/
theorem validateEvents_not_processing (lines : List Line) :
    ∀ n, ∀ e ∈ (validateEvents n lines).1, e.isProcessing = false := by
  induction lines with
  | nil => intro n e he; exact absurd he (List.not_mem_nil _)
  | cons l rest ih =>
    intro n e he
    cases l with
    | blank => exact ih (n + 1) e he
    | malformed raw =>
      have he2 : e ∈ [Event.validationFailed n] := he
      rcases List.mem_cons.mp he2 with h1 | h2
      · rw [h1]; rfl
      · exact absurd h2 (List.not_mem_nil _)
    | valid r =>
      have he2 : e ∈ Event.readRecord r :: (validateEvents (n + 1) rest).1 := he
      rcases List.mem_cons.mp he2 with h1 | h2
      · rw [h1]; rfl
      · exact ih (n + 1) e h2

/-- Claim C6 (counterexample): with a one-source-field reshape spec, the
trace of the single-file path parses the input's record during
validation before the configuration is rejected, so the rejection does
not happen before any record of the input file is read. -/
theorem config_error_after_validation_read :
    processTrace [Line.valid [("a", JsonVal.int 1)]] c6Cfg =
      [Event.readRecord [("a", JsonVal.int 1)], Event.configError "k"] ∧
    (processTrace [Line.valid [("a", JsonVal.int 1)]] c6Cfg).get? 0 =
      some (Event.readRecord [("a", JsonVal.int 1)]) :=
  ⟨rfl, rfl⟩

/-- Claim C6 (amended): a configuration containing a reshape spec entry
whose source-field list does not have 2 or 3 fields is rejected with a
fatal error before any record is processed — the trace contains no
processing event, and when the input validates, the trace is exactly the
validation reads followed by the configuration error; the input is,
however, fully read once by the validation pass before the check. -/
theorem bad_chatml_spec_rejected_before_processing (lines : List Line) (cfg : Config)
    (k : String) (hbad : chatmlConfigBad cfg.chatml = some k) :
    (∀ e ∈ processTrace lines cfg, e.isProcessing = false) ∧
    ((validateEvents 1 lines).2 = true →
      processTrace lines cfg = (validateEvents 1 lines).1 ++ [Event.configError k]) := by
  have hne : cfg.chatml.isEmpty = false := by
    cases hc : cfg.chatml with
    | nil => rw [hc] at hbad; simp [chatmlConfigBad] at hbad
    | cons a l => rfl
  by_cases hv : (validateEvents 1 lines).2 = true
  case neg =>
    have hvf : (validateEvents 1 lines).2 = false := by simpa using hv
    have htr : processTrace lines cfg = (validateEvents 1 lines).1 := by
      simp [processTrace, hvf]
    constructor
    · intro e he
      rw [htr] at he
      exact validateEvents_not_processing lines 1 e he
    · intro h
      exact absurd h hv
  case pos =>
    have hops : (cfg.additions.isEmpty && cfg.renames.isEmpty
        && cfg.deleteConds.isEmpty && cfg.chatml.isEmpty) = false := by
      simp [hne]
    have htr : processTrace lines cfg =
        (validateEvents 1 lines).1 ++ [Event.configError k] := by
      simp [processTrace, hv, hops, hbad]
    constructor
    · intro e he
      rw [htr] at he
      rcases List.mem_append.mp he with h1 | h2
      · exact validateEvents_not_processing lines 1 e h1
      · rcases List.mem_cons.mp h2 with h3 | h4
        · rw [h3]; rfl
        · exact absurd h4 (List.not_mem_nil _)
    · intro _
      exact htr

/-- Witness for the amended C6 theorem at a one-record file and a
length-1 reshape spec. -/
theorem bad_chatml_spec_rejected_before_processing_witness :
    processTrace [Line.valid [("a", JsonVal.int 1)]] c6Cfg =
      (validateEvents 1 [Line.valid [("a", JsonVal.int 1)]]).1 ++ [Event.configError "k"] :=
  (bad_chatml_spec_rejected_before_processing [Line.valid [("a", JsonVal.int 1)]]
    c6Cfg "k" rfl).2 rfl

/-- Writing one cell leaves the others unchanged. -/
theorem getAt_setAt_ne (st : Store) (a b : Nat) (d : PyDict) (h : a ≠ b) :
    (st.setAt b d).getAt a = st.getAt a := by
  unfold Store.getAt Store.setAt
  rw [List.get?_set_ne d st.cells (fun e => h e.symm)]

/-- Writing a valid cell makes it read back. -/
theorem getAt_setAt_self (st : Store) (a : Nat) (d : PyDict) (h : a < st.cells.length) :
    (st.setAt a d).getAt a = d := by
  unfold Store.getAt Store.setAt
  rw [List.get?_set_eq]
  cases hx : st.cells.get? a with
  | none =>
    exfalso
    have := List.get?_eq_none.mp hx
    omega
  | some x => simp

/-- Allocation leaves existing cells unchanged. -/
theorem getAt_alloc_lt (st : Store) (a : Nat) (d : PyDict) (h : a < st.cells.length) :
    (st.alloc d).1.getAt a = st.getAt a := by
  unfold Store.getAt Store.alloc
  rw [List.get?_append h]

/-- The allocated cell holds the allocated dict. -/
theorem getAt_alloc_new (st : Store) (d : PyDict) :
    (st.alloc d).1.getAt (st.alloc d).2 = d := by
  unfold Store.getAt Store.alloc
  rw [List.get?_concat_length]
  rfl

/-- A fold that only ever writes one result cell leaves every other cell
unchanged, keeps the store size, and leaves the result cell holding the
corresponding pure fold. -/
theorem foldSetAt {α : Type} (step : PyDict → α → PyDict) (L : List α) :
    ∀ (s : Store) (r : Nat), r < s.cells.length →
      ((L.foldl (fun st x => st.setAt r (step (st.getAt r) x)) s).cells.length =
          s.cells.length ∧
       (∀ q, q ≠ r →
          (L.foldl (fun st x => st.setAt r (step (st.getAt r) x)) s).getAt q = s.getAt q) ∧
       (L.foldl (fun st x => st.setAt r (step (st.getAt r) x)) s).getAt r =
          L.foldl step (s.getAt r)) := by
  induction L with
  | nil => intro s r _; exact ⟨rfl, fun q _ => rfl, rfl⟩
  | cons x xs ih =>
    intro s r hr
    have hlen : (s.setAt r (step (s.getAt r) x)).cells.length = s.cells.length := by
      unfold Store.setAt
      exact List.length_set s.cells r _
    have hr2 : r < (s.setAt r (step (s.getAt r) x)).cells.length := by
      rw [hlen]; exact hr
    obtain ⟨ih1, ih2, ih3⟩ := ih (s.setAt r (step (s.getAt r) x)) r hr2
    have hfold : (x :: xs).foldl (fun st x => st.setAt r (step (st.getAt r) x)) s =
        xs.foldl (fun st x => st.setAt r (step (st.getAt r) x))
          (s.setAt r (step (s.getAt r) x)) := rfl
    refine ⟨?_, ?_, ?_⟩
    · rw [hfold, ih1, hlen]
    · intro q hq
      rw [hfold, ih2 q hq, getAt_setAt_ne _ _ _ _ hq]
    · rw [hfold, ih3, getAt_setAt_self _ _ _ hr]
      rfl

/-- The convert loop on the store keeps every cell other than the result
unchanged (in particular the record), keeps the store size, and leaves
the result cell holding the pure fold reading the record as it was at
entry. -/
theorem convertFold (rec r : Nat) (cfg : List (String × JsonVal)) :
    ∀ (s : Store), r < s.cells.length → rec ≠ r →
      ((cfg.foldl (chatmlStoreStep rec r) s).cells.length = s.cells.length ∧
       (∀ q, q ≠ r → (cfg.foldl (chatmlStoreStep rec r) s).getAt q = s.getAt q) ∧
       (cfg.foldl (chatmlStoreStep rec r) s).getAt r =
         cfg.foldl (chatmlStep (s.getAt rec)) (s.getAt r)) := by
  induction cfg with
  | nil => intro s _ _; exact ⟨rfl, fun q _ => rfl, rfl⟩
  | cons kv rest ih =>
    intro s hr hrec
    have hsplit : (chatmlStoreStep rec r s kv = s ∧
        chatmlStep (s.getAt rec) (s.getAt r) kv = s.getAt r) ∨
        chatmlStoreStep rec r s kv =
          s.setAt r (chatmlStep (s.getAt rec) (s.getAt r) kv) := by
      obtain ⟨k0, v0⟩ := kv
      cases v0 with
      | arr fs =>
        by_cases hl : (fs.length == 2 || fs.length == 3) = true
        · by_cases he : (chatmlEntries (s.getAt rec) fs).isEmpty = true
          · exact Or.inl ⟨by simp [chatmlStoreStep, hl, he], by simp [chatmlStep, hl, he]⟩
          · exact Or.inr (by simp [chatmlStoreStep, chatmlStep, hl, he])
        · exact Or.inl ⟨by simp [chatmlStoreStep, hl], by simp [chatmlStep, hl]⟩
      | null => exact Or.inl ⟨rfl, rfl⟩
      | bool b => exact Or.inl ⟨rfl, rfl⟩
      | int n => exact Or.inl ⟨rfl, rfl⟩
      | str s2 => exact Or.inl ⟨rfl, rfl⟩
      | obj fs2 => exact Or.inl ⟨rfl, rfl⟩
    have hfold : (kv :: rest).foldl (chatmlStoreStep rec r) s =
        rest.foldl (chatmlStoreStep rec r) (chatmlStoreStep rec r s kv) := rfl
    have hfoldP : (kv :: rest).foldl (chatmlStep (s.getAt rec)) (s.getAt r) =
        rest.foldl (chatmlStep (s.getAt rec)) (chatmlStep (s.getAt rec) (s.getAt r) kv) := rfl
    rcases hsplit with ⟨hs1, hs2⟩ | hs1
    · obtain ⟨ih1, ih2, ih3⟩ := ih s hr hrec
      refine ⟨?_, ?_, ?_⟩
      · rw [hfold, hs1, ih1]
      · intro q hq
        rw [hfold, hs1, ih2 q hq]
      · rw [hfold, hs1, ih3, hfoldP, hs2]
    · have hlen : (s.setAt r (chatmlStep (s.getAt rec) (s.getAt r) kv)).cells.length =
          s.cells.length := by
        unfold Store.setAt
        exact List.length_set s.cells r _
      have hr2 : r < (s.setAt r (chatmlStep (s.getAt rec) (s.getAt r) kv)).cells.length := by
        rw [hlen]; exact hr
      have hgetrec : (s.setAt r (chatmlStep (s.getAt rec) (s.getAt r) kv)).getAt rec =
          s.getAt rec := getAt_setAt_ne _ _ _ _ hrec
      have hgetr : (s.setAt r (chatmlStep (s.getAt rec) (s.getAt r) kv)).getAt r =
          chatmlStep (s.getAt rec) (s.getAt r) kv := getAt_setAt_self _ _ _ hr
      obtain ⟨ih1, ih2, ih3⟩ := ih (s.setAt r (chatmlStep (s.getAt rec) (s.getAt r) kv)) hr2 hrec
      refine ⟨?_, ?_, ?_⟩
      · rw [hfold, hs1, ih1, hlen]
      · intro q hq
        rw [hfold, hs1, ih2 q hq, getAt_setAt_ne _ _ _ _ hq]
      · rw [hfold, hs1, ih3, hgetrec, hgetr, hfoldP]

/-- Claim C9: each transformer operation, run on the store, leaves the
caller's record cell exactly as it was — the result is a freshly
allocated copy whose final contents are the pure function of the input —
and the delete-check performs no writes at all, so calling it twice on
the same record and conditions yields the same boolean. -/
theorem transformers_do_not_mutate_input (st : Store) (a : Nat)
    (ka : List (String × JsonVal)) (m : List (String × String))
    (cfg : List (String × JsonVal)) (dc : List (String × JsonVal))
    (ha : a < st.cells.length) :
    (add_keys_st st a ka).1.getAt a = st.getAt a ∧
    (add_keys_st st a ka).1.getAt (add_keys_st st a ka).2 = add_keys (st.getAt a) ka ∧
    (modify_keys_st st a m).1.getAt a = st.getAt a ∧
    (modify_keys_st st a m).1.getAt (modify_keys_st st a m).2 =
      modify_keys (st.getAt a) m ∧
    (convert_to_chatml_st st a cfg).1.getAt a = st.getAt a ∧
    (convert_to_chatml_st st a cfg).1.getAt (convert_to_chatml_st st a cfg).2 =
      convert_to_chatml_function (st.getAt a) cfg ∧
    (should_delete_st st a dc).1 = st ∧
    (should_delete_st (should_delete_st st a dc).1 a dc).2 =
      (should_delete_st st a dc).2 := by
  have hne : a ≠ st.cells.length := Nat.ne_of_lt ha
  have hlt1 : st.cells.length < ((st.alloc (st.getAt a)).1).cells.length := by
    simp [Store.alloc]
  have hlt2 : st.cells.length < ((st.alloc ([] : PyDict)).1).cells.length := by
    simp [Store.alloc]
  have hadd := foldSetAt (fun d kv => pySet d kv.1 kv.2) ka
    ((st.alloc (st.getAt a)).1) st.cells.length hlt1
  have hmod := foldSetAt (modifyStep m) (st.getAt a)
    ((st.alloc ([] : PyDict)).1) st.cells.length hlt2
  have hconv := convertFold a st.cells.length cfg ((st.alloc (st.getAt a)).1) hlt1 hne
  refine ⟨?_, ?_, ?_, ?_, ?_, ?_, rfl, rfl⟩
  · have h1 : (add_keys_st st a ka).1.getAt a = ((st.alloc (st.getAt a)).1).getAt a :=
      hadd.2.1 a hne
    rw [h1]
    exact getAt_alloc_lt st a _ ha
  · have h2 : (add_keys_st st a ka).1.getAt (add_keys_st st a ka).2 =
        ka.foldl (fun d kv => pySet d kv.1 kv.2)
          (((st.alloc (st.getAt a)).1).getAt st.cells.length) := hadd.2.2
    rw [h2]
    have h3 : ((st.alloc (st.getAt a)).1).getAt st.cells.length = st.getAt a :=
      getAt_alloc_new st (st.getAt a)
    rw [h3]
    rfl
  · have h1 : (modify_keys_st st a m).1.getAt a = ((st.alloc ([] : PyDict)).1).getAt a :=
      hmod.2.1 a hne
    rw [h1]
    exact getAt_alloc_lt st a _ ha
  · have h2 : (modify_keys_st st a m).1.getAt (modify_keys_st st a m).2 =
        (st.getAt a).foldl (modifyStep m)
          (((st.alloc ([] : PyDict)).1).getAt st.cells.length) := hmod.2.2
    rw [h2]
    have h3 : ((st.alloc ([] : PyDict)).1).getAt st.cells.length = [] :=
      getAt_alloc_new st []
    rw [h3]
    rfl
  · have h1 : (convert_to_chatml_st st a cfg).1.getAt a =
        ((st.alloc (st.getAt a)).1).getAt a := hconv.2.1 a hne
    rw [h1]
    exact getAt_alloc_lt st a _ ha
  · have h2 : (convert_to_chatml_st st a cfg).1.getAt (convert_to_chatml_st st a cfg).2 =
        cfg.foldl (chatmlStep (((st.alloc (st.getAt a)).1).getAt a))
          (((st.alloc (st.getAt a)).1).getAt st.cells.length) := hconv.2.2
    rw [h2]
    have h3 : ((st.alloc (st.getAt a)).1).getAt st.cells.length = st.getAt a :=
      getAt_alloc_new st (st.getAt a)
    have h4 : ((st.alloc (st.getAt a)).1).getAt a = st.getAt a :=
      getAt_alloc_lt st a _ ha
    rw [h3, h4]
    rfl

/-- Witness for the C9 theorem: on a one-cell store the input record is
untouched by add-fields. -/
theorem transformers_do_not_mutate_input_witness :
    (add_keys_st st0 0 [("b", JsonVal.int 2)]).1.getAt 0 = st0.getAt 0 :=
  (transformers_do_not_mutate_input st0 0 [("b", JsonVal.int 2)] [] [] []
    (by decide)).1

end JsonlUtils
